import Mathlib

/-!
Shallow embedding of the `greedy` kubernetes-config resource scanner
(`src/main.rs`) and verification of its specification claims.

The program aggregates CPU/memory requests and limits extracted from YAML
text by four fixed regular expressions.  Machine integers (`u64`) are
modelled as `ℕ` with explicit reduction modulo `2 ^ 64` at each addition;
IEEE binary32 (`f32`) values are modelled as exact rationals together with
an executable round-to-nearest-ties-to-even rounding function applied after
every arithmetic operation, exactly as IEEE arithmetic does.
-/

attribute [local semireducible] Rat.add Rat.sub Rat.mul Rat.inv Rat.ofScientific

set_option maxRecDepth 8000

namespace Greedy

/-! ### IEEE binary32 model

A finite nonnegative `f32` value is a rational of the form `m * 2 ^ (e - 23)`
with `m < 2 ^ 24` and `-126 ≤ e`.  `roundF32` rounds an arbitrary rational to
the nearest such value, ties to even, which is the rounding every Rust `f32`
arithmetic operation performs on its exact result. -/

/-- `2 ^ e` over ℚ, written to evaluate by kernel-accelerated `ℕ` power. -/
def pow2 : ℤ → ℚ
  | .ofNat n => ((2 ^ n : ℕ) : ℚ)
  | .negSucc n => (((2 ^ (n + 1) : ℕ) : ℚ))⁻¹

/-- Round a rational to the nearest integer, ties to even.
Uses `Rat.floor` (rather than `Int.floor`) so that it evaluates
inside the kernel. -/
def rne (x : ℚ) : ℤ :=
  if x - x.floor < 1 / 2 then x.floor
  else if (1 / 2 : ℚ) < x - x.floor then x.floor + 1
  else if x.floor % 2 = 0 then x.floor else x.floor + 1

/-- Binary exponent search: the largest `e ∈ [-126, n - 126]` with
`2 ^ e ≤ q`, and `-126` when there is none (zero / subnormal range). -/
def expLoop (q : ℚ) : ℕ → ℤ
  | 0 => -126
  | n + 1 => if pow2 ((n : ℤ) - 125) ≤ q then (n : ℤ) - 125 else expLoop q n

/-- Exponent used to round a nonnegative rational to binary32.  The search
covers `e ∈ [-126, 128]`, the whole finite binary32 exponent range (values
at or beyond `2 ^ 128` overflow to infinity in IEEE arithmetic and are out
of scope for this development; the model keeps them on the top binade's
grid instead). -/
def f32exp (q : ℚ) : ℤ := expLoop q 254

/-- Round a nonnegative rational to the binary32 grid
(nearest, ties to even). -/
def roundPos (q : ℚ) : ℚ :=
  (rne (q * pow2 (23 - f32exp q)) : ℚ) * pow2 (f32exp q - 23)

/-- Round a rational to the nearest binary32 value (ties to even). -/
def roundF32 (q : ℚ) : ℚ :=
  if q < 0 then -roundPos (-q) else roundPos q

/-- `f32` addition: exact sum, then IEEE rounding. -/
def f32add (x y : ℚ) : ℚ := roundF32 (x + y)

/-- `f32` division: exact quotient, then IEEE rounding. -/
def f32div (x y : ℚ) : ℚ := roundF32 (x / y)

/-- Rust `u64 as f32` conversion (round to nearest, ties to even). -/
def f32ofNat (n : ℕ) : ℚ := roundF32 (n : ℚ)

/-! ### Numeric prefix parser (`num_prefix_or_zero`, `src/main.rs:171`)

The Rust code runs the regex `^([0-9]+)` over the input and feeds the first
(and only possible) capture to `str::parse::<u64>`.  The anchored greedy
`[0-9]+` captures exactly the longest leading run of ASCII decimal digits;
the parse fails exactly when the value does not fit in a `u64`. -/

/-- The capture of `^([0-9]+)`: the longest leading ASCII-digit run. -/
def leadingDigits (cs : List Char) : List Char :=
  cs.takeWhile (fun c => c.isDigit)

/-- Decimal value of a digit string (the value `str::parse` computes). -/
def digitsToNat (cs : List Char) : ℕ :=
  cs.foldl (fun a c => 10 * a + (c.toNat - 48)) 0

/-- Rust `str::parse::<u64>` on an all-digit candidate string: the value if
it fits in 64 bits, an error (`none`) otherwise. -/
def parse_u64 (cs : List Char) : Option ℕ :=
  if cs = [] then none
  else if cs.all (fun c => c.isDigit) then
    if digitsToNat cs < 2 ^ 64 then some (digitsToNat cs) else none
  else none

/-- `num_prefix_or_zero` from `src/main.rs:171`: first capture of
`^([0-9]+)` if the regex matches, parsed as `u64`; `0` when the regex does
not match or the parse errors. -/
def num_prefix_or_zeroL (cs : List Char) : ℕ :=
  match (if leadingDigits cs = [] then none else some (parse_u64 (leadingDigits cs))) with
  | some (some v) => v
  | _ => 0

/-- `num_prefix_or_zero` on a Rust `&str`. -/
def num_prefix_or_zero (s : String) : ℕ := num_prefix_or_zeroL s.data

/-- `parse_mem` from `src/main.rs:184`. -/
def parse_memL (cs : List Char) : ℕ := num_prefix_or_zeroL cs

/-- `parse_cpu` from `src/main.rs:188`:
`num_prefix_or_zero(s) as f32 / 1000.0`. -/
def parse_cpuL (cs : List Char) : ℚ :=
  f32div (f32ofNat (num_prefix_or_zeroL cs)) 1000

/-- `parse_cpu` on a Rust `&str`. -/
def parse_cpu (s : String) : ℚ := parse_cpuL s.data

/-! ### The four extraction regexes (`src/main.rs:38` – `62`)

Each pattern is a concatenation of string literals, greedy `\s*` runs, and
greedy capture groups `(.*)`; the `regex` crate gives them leftmost-first
(backtracking-equivalent) semantics, with `captures_iter` producing all
successive non-overlapping matches.  The matcher below implements exactly
those semantics for this token language. -/

/-- Character class of Rust regex `\s` (Unicode whitespace). -/
def wsP (c : Char) : Bool :=
  c = ' ' || c = '\t' || c = '\n' || c = '\r' ||
  c.toNat = 0x0b || c.toNat = 0x0c || c.toNat = 0x85 || c.toNat = 0xa0 ||
  c.toNat = 0x1680 || (0x2000 ≤ c.toNat && c.toNat ≤ 0x200a) ||
  c.toNat = 0x2028 || c.toNat = 0x2029 || c.toNat = 0x202f ||
  c.toNat = 0x205f || c.toNat = 0x3000

/-- Character class of Rust regex `.`: any character but a newline. -/
def dotP (c : Char) : Bool := c != '\n'

/-- One token of the pattern language used by the four fixed regexes. -/
inductive Tok where
  | lit : List Char → Tok
  | star : (Char → Bool) → Tok
  | capStar : (Char → Bool) → Tok

/-- Greedy matching of a non-capturing `p*`: try the longest consumable
run first (`k` characters), backtracking one character at a time. -/
def starSearch (f : List Char → Option (List (List Char) × List Char))
    (s : List Char) : ℕ → Option (List (List Char) × List Char)
  | 0 => f s
  | k + 1 =>
    match f (s.drop (k + 1)) with
    | some r => some r
    | none => starSearch f s k

/-- Greedy matching of a capture group `(p*)`, recording the consumed run. -/
def capSearch (f : List Char → Option (List (List Char) × List Char))
    (s : List Char) : ℕ → Option (List (List Char) × List Char)
  | 0 =>
    match f s with
    | some (caps, rest) => some (([] : List Char) :: caps, rest)
    | none => none
  | k + 1 =>
    match f (s.drop (k + 1)) with
    | some (caps, rest) => some (s.take (k + 1) :: caps, rest)
    | none => capSearch f s k

/-- Backtracking matcher for a token sequence anchored at the start of
`s`; returns the capture list (in group order) and the suffix after the
match. -/
def matchToks : List Tok → List Char → Option (List (List Char) × List Char)
  | [], s => some ([], s)
  | .lit l :: ts, s =>
    if l.isPrefixOf s then matchToks ts (s.drop l.length) else none
  | .star p :: ts, s => starSearch (matchToks ts) s (s.takeWhile p).length
  | .capStar p :: ts, s => capSearch (matchToks ts) s (s.takeWhile p).length

/-- Leftmost match: try every start position from the left. -/
def findMatch (toks : List Tok) : List Char → Option (List (List Char) × List Char)
  | [] => matchToks toks []
  | c :: s =>
    match matchToks toks (c :: s) with
    | some r => some r
    | none => findMatch toks s

/-- All successive non-overlapping leftmost matches (`captures_iter`).
Every match of the four patterns consumes at least one character, so
`s.length + 1` rounds of fuel are always enough. -/
def allMatchesFuel (toks : List Tok) : ℕ → List Char → List (List (List Char))
  | 0, _ => []
  | fuel + 1, s =>
    match findMatch toks s with
    | none => []
    | some (caps, rest) => caps :: allMatchesFuel toks fuel rest

/-- `captures_iter` of a pattern over a document. -/
def allMatches (toks : List Tok) (s : List Char) : List (List (List Char)) :=
  allMatchesFuel toks (s.length + 1) s

/-- `requests:\s*cpu:\s*"(.*)"\s*memory:\s*(.*)` (`src/main.rs:40`). -/
def REGEX_REQ_CPU_MEM : List Tok :=
  [.lit "requests:".data, .star wsP, .lit "cpu:".data, .star wsP,
   .lit "\"".data, .capStar dotP, .lit "\"".data, .star wsP,
   .lit "memory:".data, .star wsP, .capStar dotP]

/-- `requests:\s*memory:\s*"(.*)"\s*cpu:\s*"(.*)"` (`src/main.rs:46`). -/
def REGEX_REQ_MEM_CPU : List Tok :=
  [.lit "requests:".data, .star wsP, .lit "memory:".data, .star wsP,
   .lit "\"".data, .capStar dotP, .lit "\"".data, .star wsP,
   .lit "cpu:".data, .star wsP, .lit "\"".data, .capStar dotP, .lit "\"".data]

/-- `limits:\s*cpu:\s*"(.*)"\s*memory:\s*(.*)` (`src/main.rs:52`). -/
def REGEX_LIM_CPU_MEM : List Tok :=
  [.lit "limits:".data, .star wsP, .lit "cpu:".data, .star wsP,
   .lit "\"".data, .capStar dotP, .lit "\"".data, .star wsP,
   .lit "memory:".data, .star wsP, .capStar dotP]

/-- `limits:\s*memory:\s*"(.*)"\s*cpu:\s*"(.*)"` (`src/main.rs:58`). -/
def REGEX_LIM_MEM_CPU : List Tok :=
  [.lit "limits:".data, .star wsP, .lit "memory:".data, .star wsP,
   .lit "\"".data, .capStar dotP, .lit "\"".data, .star wsP,
   .lit "cpu:".data, .star wsP, .lit "\"".data, .capStar dotP, .lit "\"".data]

/-! ### `Resources` and aggregation (`src/main.rs:102` – `135`) -/

/-- `u64` addition: wraps modulo `2 ^ 64`. -/
def u64add (a b : ℕ) : ℕ := (a + b) % 2 ^ 64

/-- The `Resources` struct: `u64` memory fields, `f32` CPU fields. -/
structure Resources where
  mem_request : ℕ
  mem_limit : ℕ
  cpu_request : ℚ
  cpu_limit : ℚ
deriving DecidableEq, Repr

/-- `impl Add for Resources` (`src/main.rs:124`): field-wise addition. -/
def addResources (a b : Resources) : Resources :=
  { mem_request := u64add a.mem_request b.mem_request
    mem_limit := u64add a.mem_limit b.mem_limit
    cpu_request := f32add a.cpu_request b.cpu_request
    cpu_limit := f32add a.cpu_limit b.cpu_limit }

/-- The all-zero identity used by `impl Sum for Resources`. -/
def zeroResources : Resources :=
  { mem_request := 0, mem_limit := 0, cpu_request := 0, cpu_limit := 0 }

/-- `impl Sum for Resources` (`src/main.rs:110`): left fold of `Add::add`
from the all-zero record. -/
def sumResources (l : List Resources) : Resources :=
  l.foldl addResources zeroResources

/-- `analyze` from `src/main.rs:137`: run the four patterns with
`captures_iter`, collect the raw capture strings per bucket in the code's
push order, then sum each normalized bucket (`u64` sums for memory, `f32`
sums for CPU). -/
def analyzeL (config : List Char) : Resources :=
  let reqCM := allMatches REGEX_REQ_CPU_MEM config
  let reqMC := allMatches REGEX_REQ_MEM_CPU config
  let limCM := allMatches REGEX_LIM_CPU_MEM config
  let limMC := allMatches REGEX_LIM_MEM_CPU config
  let cpu_requests_str := reqCM.map (fun caps => caps.getD 0 []) ++
    reqMC.map (fun caps => caps.getD 1 [])
  let mem_requests_str := reqCM.map (fun caps => caps.getD 1 []) ++
    reqMC.map (fun caps => caps.getD 0 [])
  let cpu_limits_str := limCM.map (fun caps => caps.getD 0 []) ++
    limMC.map (fun caps => caps.getD 1 [])
  let mem_limits_str := limCM.map (fun caps => caps.getD 1 []) ++
    limMC.map (fun caps => caps.getD 0 [])
  { mem_request := (mem_requests_str.map parse_memL).foldl u64add 0
    mem_limit := (mem_limits_str.map parse_memL).foldl u64add 0
    cpu_request := (cpu_requests_str.map parse_cpuL).foldl f32add 0
    cpu_limit := (cpu_limits_str.map parse_cpuL).foldl f32add 0 }

/-- `analyze` on a Rust `&str`. -/
def analyze (config : String) : Resources := analyzeL config.data

/-! ### File enumeration (`find_yamls`, `src/main.rs:76`)

The filesystem is modelled as a tree; a directory whose entries cannot be
listed carries `readable := false` (`fs::read_dir` fails there, and the
`?` operator propagates the error). -/

mutual

/-- A filesystem node: a missing path, a plain file with an optional
extension and its content, or a directory. -/
inductive FsNode where
  | missing : FsNode
  | file : Option String → String → FsNode
  | dir : Bool → FsList → FsNode

/-- A directory's list of entries. -/
inductive FsList where
  | nil : FsList
  | cons : FsNode → FsList → FsList

end

/-- `Path::is_dir`. -/
def isDirN : FsNode → Bool
  | .dir _ _ => true
  | _ => false

mutual

/-- Traverse one entry, collecting contents of files with the `yaml`
extension; an unreadable directory aborts with an error as `fs::read_dir?`
does. -/
def walkNode : FsNode → Except Unit (List String)
  | .missing => .ok []
  | .file ext content => .ok (if ext = some "yaml" then [content] else [])
  | .dir readable es => if readable then walkList es else .error ()

/-- Traverse a directory's entries in order. -/
def walkList : FsList → Except Unit (List String)
  | .nil => .ok []
  | .cons n rest =>
    match walkNode n with
    | .error e => .error e
    | .ok xs =>
      match walkList rest with
      | .error e => .error e
      | .ok ys => .ok (xs ++ ys)

end

/-- `find_yamls` from `src/main.rs:76`: an empty result for a root that is
not a directory, otherwise the recursively collected `.yaml` files (the
claims below do not depend on traversal order). -/
def find_yamls (root : FsNode) : Except Unit (List String) :=
  match root with
  | .dir readable es => if readable then walkList es else .error ()
  | _ => .ok []

/-- The grand total `main` computes over the documents it read
(`src/main.rs:64`): `summarize` each, fold with `Sum`. -/
def totalsOf (docs : List String) : Resources :=
  sumResources (docs.map analyze)

/-- A sample totals record used to instantiate the monotonicity theorem. -/
def sampleT : Resources :=
  { mem_request := 1, mem_limit := 2, cpu_request := 1 / 2, cpu_limit := 3 / 2 }

/-- A second sample totals record for the monotonicity theorem. -/
def sampleU : Resources :=
  { mem_request := 3, mem_limit := 4, cpu_request := 1 / 4, cpu_limit := 0 }

theorem pow2_eq_zpow (e : ℤ) : pow2 e = (2 : ℚ) ^ e := by
  cases e with
  | ofNat n => simp [pow2, zpow_natCast]
  | negSucc n => simp [pow2, zpow_negSucc]

theorem pow2_pos (e : ℤ) : 0 < pow2 e := by
  rw [pow2_eq_zpow]; positivity

theorem pow2_mono {e f : ℤ} (h : e ≤ f) : pow2 e ≤ pow2 f := by
  rw [pow2_eq_zpow, pow2_eq_zpow]
  exact zpow_le_zpow_right₀ one_le_two h

theorem pow2_mul (a b : ℤ) : pow2 a * pow2 b = pow2 (a + b) := by
  rw [pow2_eq_zpow, pow2_eq_zpow, pow2_eq_zpow]
  exact (zpow_add₀ (two_ne_zero) a b).symm

theorem rat_floor_eq_int_floor (x : ℚ) : x.floor = ⌊x⌋ := rfl

/-! ### Rounding lemmas: `roundF32` is monotone on the nonnegative reals,
which is what makes IEEE `f32` addition of a nonnegative value never
decrease a float. -/

theorem floor_le_rne (x : ℚ) : ⌊x⌋ ≤ rne x := by
  unfold rne
  rw [rat_floor_eq_int_floor]
  split_ifs <;> omega

theorem rne_le_floor_add_one (x : ℚ) : rne x ≤ ⌊x⌋ + 1 := by
  unfold rne
  rw [rat_floor_eq_int_floor]
  split_ifs <;> omega

theorem le_rne {m : ℤ} {x : ℚ} (h : (m : ℚ) ≤ x) : m ≤ rne x :=
  le_trans (Int.le_floor.mpr h) (floor_le_rne x)

theorem rne_intCast (m : ℤ) : rne (m : ℚ) = m := by
  unfold rne
  rw [rat_floor_eq_int_floor, Int.floor_intCast]
  norm_num

theorem rne_le {x : ℚ} {m : ℤ} (h : x ≤ (m : ℚ)) : rne x ≤ m := by
  have hf : ⌊x⌋ ≤ m := by
    have := Int.floor_mono h
    rwa [Int.floor_intCast] at this
  rcases lt_or_eq_of_le hf with hlt | heq
  · exact le_trans (rne_le_floor_add_one x) (by omega)
  · have hxm : x = (m : ℚ) := by
      refine le_antisymm h ?_
      calc (m : ℚ) = (⌊x⌋ : ℚ) := by exact_mod_cast heq.symm
        _ ≤ x := Int.floor_le x
    rw [hxm, rne_intCast]

theorem rne_mono {a b : ℚ} (h : a ≤ b) : rne a ≤ rne b := by
  have hf : ⌊a⌋ ≤ ⌊b⌋ := Int.floor_mono h
  rcases lt_or_eq_of_le hf with hlt | heq
  · calc rne a ≤ ⌊a⌋ + 1 := rne_le_floor_add_one a
      _ ≤ ⌊b⌋ := by omega
      _ ≤ rne b := floor_le_rne b
  · unfold rne
    rw [rat_floor_eq_int_floor, rat_floor_eq_int_floor, heq]
    have hfr : a - (⌊b⌋ : ℚ) ≤ b - (⌊b⌋ : ℚ) := by linarith
    split_ifs <;> first | omega | linarith

theorem expLoop_ge (q : ℚ) (n : ℕ) : -126 ≤ expLoop q n := by
  induction n with
  | zero => exact le_refl _
  | succ n ih =>
    unfold expLoop
    split_ifs with h
    · omega
    · exact ih

theorem expLoop_le (q : ℚ) (n : ℕ) : expLoop q n ≤ (n : ℤ) - 126 := by
  induction n with
  | zero => simp [expLoop]
  | succ n ih =>
    unfold expLoop
    split_ifs with h
    · push_cast; omega
    · calc expLoop q n ≤ (n : ℤ) - 126 := ih
        _ ≤ ((n + 1 : ℕ) : ℤ) - 126 := by push_cast; omega

theorem expLoop_lb (q : ℚ) (n : ℕ) :
    expLoop q n = -126 ∨ pow2 (expLoop q n) ≤ q := by
  induction n with
  | zero => exact Or.inl rfl
  | succ n ih =>
    unfold expLoop
    split_ifs with h
    · exact Or.inr h
    · exact ih

theorem expLoop_ub (q : ℚ) (n : ℕ) :
    expLoop q n = (n : ℤ) - 126 ∨ q < pow2 (expLoop q n + 1) := by
  induction n with
  | zero => exact Or.inl (by simp [expLoop])
  | succ n ih =>
    unfold expLoop
    split_ifs with h
    · exact Or.inl (by push_cast; ring)
    · rcases ih with heq | hlt
      · refine Or.inr ?_
        rw [heq]
        have : ((n : ℤ) - 126) + 1 = (n : ℤ) - 125 := by ring
        rw [this]
        exact lt_of_not_le h
      · exact Or.inr hlt

theorem expLoop_mono {a b : ℚ} (h : a ≤ b) (n : ℕ) :
    expLoop a n ≤ expLoop b n := by
  induction n with
  | zero => exact le_refl _
  | succ n ih =>
    unfold expLoop
    split_ifs with ha hb
    · exact le_refl _
    · exact absurd (le_trans ha h) hb
    · calc expLoop a n ≤ (n : ℤ) - 126 := expLoop_le a n
        _ ≤ (n : ℤ) - 125 := by omega
    · exact ih

theorem pow2_natLit (k : ℕ) : pow2 (k : ℤ) = ((2 ^ k : ℤ) : ℚ) := by
  rw [pow2_eq_zpow, zpow_natCast]
  push_cast
  ring

theorem pow2_24_eq : pow2 24 = ((2 ^ 24 : ℤ) : ℚ) := by decide

theorem pow2_23_eq : pow2 23 = ((2 ^ 23 : ℤ) : ℚ) := by decide

theorem f32exp_ge (q : ℚ) : -126 ≤ f32exp q := expLoop_ge q 254

theorem f32exp_le128 (q : ℚ) : f32exp q ≤ 128 := by
  have h := expLoop_le q 254
  unfold f32exp
  omega

theorem f32exp_lb (q : ℚ) : f32exp q = -126 ∨ pow2 (f32exp q) ≤ q :=
  expLoop_lb q 254

theorem f32exp_ub (q : ℚ) : f32exp q = 128 ∨ q < pow2 (f32exp q + 1) := by
  rcases expLoop_ub q 254 with h | h
  · exact Or.inl (by unfold f32exp; omega)
  · exact Or.inr h

theorem f32exp_mono {a b : ℚ} (h : a ≤ b) : f32exp a ≤ f32exp b :=
  expLoop_mono h 254

theorem roundPos_mono {a b : ℚ} (h : a ≤ b) : roundPos a ≤ roundPos b := by
  have hE : f32exp a ≤ f32exp b := f32exp_mono h
  rcases lt_or_eq_of_le hE with hlt | heq
  · -- strictly larger exponent: chain through `pow2 (f32exp a + 1) ≤ pow2 (f32exp b)`
    have hEa_max : f32exp a < 128 := lt_of_lt_of_le hlt (f32exp_le128 b)
    have hub : a < pow2 (f32exp a + 1) := by
      rcases f32exp_ub a with h' | h'
      · omega
      · exact h'
    have hEb_min : -126 < f32exp b := lt_of_le_of_lt (f32exp_ge a) hlt
    have hlb : pow2 (f32exp b) ≤ b := by
      rcases f32exp_lb b with h' | h'
      · omega
      · exact h'
    have hupper : roundPos a ≤ pow2 (f32exp a + 1) := by
      unfold roundPos
      have hs : a * pow2 (23 - f32exp a) ≤ ((2 ^ 24 : ℤ) : ℚ) := by
        calc a * pow2 (23 - f32exp a)
            ≤ pow2 (f32exp a + 1) * pow2 (23 - f32exp a) :=
              mul_le_mul_of_nonneg_right hub.le (pow2_pos _).le
          _ = pow2 24 := by rw [pow2_mul]; ring_nf
          _ = ((2 ^ 24 : ℤ) : ℚ) := pow2_24_eq
      have hr : (rne (a * pow2 (23 - f32exp a)) : ℚ) ≤ ((2 ^ 24 : ℤ) : ℚ) :=
        Int.cast_le.mpr (rne_le hs)
      calc (rne (a * pow2 (23 - f32exp a)) : ℚ) * pow2 (f32exp a - 23)
          ≤ ((2 ^ 24 : ℤ) : ℚ) * pow2 (f32exp a - 23) :=
            mul_le_mul_of_nonneg_right hr (pow2_pos _).le
        _ = pow2 24 * pow2 (f32exp a - 23) := by rw [pow2_24_eq]
        _ = pow2 (f32exp a + 1) := by rw [pow2_mul]; ring_nf
    have hlower : pow2 (f32exp b) ≤ roundPos b := by
      unfold roundPos
      have hs : ((2 ^ 23 : ℤ) : ℚ) ≤ b * pow2 (23 - f32exp b) := by
        calc ((2 ^ 23 : ℤ) : ℚ) = pow2 23 := pow2_23_eq.symm
          _ = pow2 (f32exp b) * pow2 (23 - f32exp b) := by rw [pow2_mul]; ring_nf
          _ ≤ b * pow2 (23 - f32exp b) :=
            mul_le_mul_of_nonneg_right hlb (pow2_pos _).le
      have hr : ((2 ^ 23 : ℤ) : ℚ) ≤ (rne (b * pow2 (23 - f32exp b)) : ℚ) :=
        Int.cast_le.mpr (le_rne hs)
      calc pow2 (f32exp b) = pow2 23 * pow2 (f32exp b - 23) := by rw [pow2_mul]; ring_nf
        _ = ((2 ^ 23 : ℤ) : ℚ) * pow2 (f32exp b - 23) := by rw [pow2_23_eq]
        _ ≤ (rne (b * pow2 (23 - f32exp b)) : ℚ) * pow2 (f32exp b - 23) :=
          mul_le_mul_of_nonneg_right hr (pow2_pos _).le
    calc roundPos a ≤ pow2 (f32exp a + 1) := hupper
      _ ≤ pow2 (f32exp b) := pow2_mono (by omega)
      _ ≤ roundPos b := hlower
  · -- same exponent: monotone rounding on one grid
    unfold roundPos
    rw [heq]
    refine mul_le_mul_of_nonneg_right ?_ (pow2_pos _).le
    exact_mod_cast rne_mono (mul_le_mul_of_nonneg_right h (pow2_pos _).le)

theorem roundF32_mono_of_nonneg {a b : ℚ} (ha : 0 ≤ a) (h : a ≤ b) :
    roundF32 a ≤ roundF32 b := by
  unfold roundF32
  rw [if_neg (not_lt.mpr ha), if_neg (not_lt.mpr (le_trans ha h))]
  exact roundPos_mono h

theorem f32add_ge_left {x y : ℚ} (hx : roundF32 x = x) (hx0 : 0 ≤ x)
    (hy : 0 ≤ y) : x ≤ f32add x y := by
  calc x = roundF32 x := hx.symm
    _ ≤ roundF32 (x + y) := roundF32_mono_of_nonneg hx0 (by linarith)
    _ = f32add x y := rfl

/-! ### Aggregation lemmas: the `u64` memory components of a fold. -/

theorem foldl_u64add_eq (l : List ℕ) : ∀ a : ℕ,
    l.foldl u64add (a % 2 ^ 64) = (a + l.sum) % 2 ^ 64 := by
  induction l with
  | nil => intro a; simp
  | cons x xs ih =>
    intro a
    have hstep : u64add (a % 2 ^ 64) x = (a + x) % 2 ^ 64 := by
      unfold u64add
      exact Nat.mod_add_mod a (2 ^ 64) x
    simp only [List.foldl_cons, List.sum_cons, hstep, ih (a + x)]
    ring_nf

theorem foldl_addResources_mem_request : ∀ (l : List Resources) (z : Resources),
    (l.foldl addResources z).mem_request =
      (l.map Resources.mem_request).foldl u64add z.mem_request := by
  intro l
  induction l with
  | nil => intro z; rfl
  | cons x xs ih => intro z; simpa using ih (addResources z x)

theorem foldl_addResources_mem_limit : ∀ (l : List Resources) (z : Resources),
    (l.foldl addResources z).mem_limit =
      (l.map Resources.mem_limit).foldl u64add z.mem_limit := by
  intro l
  induction l with
  | nil => intro z; rfl
  | cons x xs ih => intro z; simpa using ih (addResources z x)

theorem sumResources_mem_request (l : List Resources) :
    (sumResources l).mem_request = (l.map Resources.mem_request).sum % 2 ^ 64 := by
  unfold sumResources
  rw [foldl_addResources_mem_request]
  have h0 : (zeroResources.mem_request : ℕ) = 0 % 2 ^ 64 := rfl
  rw [h0, foldl_u64add_eq]
  simp

theorem sumResources_mem_limit (l : List Resources) :
    (sumResources l).mem_limit = (l.map Resources.mem_limit).sum % 2 ^ 64 := by
  unfold sumResources
  rw [foldl_addResources_mem_limit]
  have h0 : (zeroResources.mem_limit : ℕ) = 0 % 2 ^ 64 := rfl
  rw [h0, foldl_u64add_eq]
  simp

/-! ### `takeWhile` facts used for the numeric prefix parser. -/

theorem takeWhile_length_maximal (p : Char → Bool) :
    ∀ (cs : List Char) (n : ℕ), n ≤ cs.length →
      (∀ c ∈ cs.take n, p c = true) → n ≤ (cs.takeWhile p).length := by
  intro cs
  induction cs with
  | nil => intro n h _; simpa using h
  | cons c cs ih =>
    intro n hn hall
    cases n with
    | zero => exact Nat.zero_le _
    | succ m =>
      have hc : p c = true := hall c (by simp)
      rw [List.takeWhile_cons, if_pos hc]
      simp only [List.length_cons, Nat.succ_le_succ_iff]
      exact ih m (by simpa using hn) (fun x hx => hall x (by simp [hx]))

theorem takeWhile_all (p : Char → Bool) (cs : List Char) :
    (cs.takeWhile p).all p = true := by
  rw [List.all_eq_true]
  intro c hc
  exact List.mem_takeWhile_imp hc

/-! ### Claim theorems -/

/-- C1, counterexample: folding the same three `Resources` records in two
permuted orders with the code's `Sum` fold yields different `cpu_request`
totals: `((0 + 2 ^ 24) + 1) + 1` rounds twice down to `2 ^ 24` in `f32`,
while `((0 + 1) + 1) + 2 ^ 24 = 2 ^ 24 + 2` is exact.  Both CPU summands
are exactly representable `f32` values, so `f32` addition is not
associative and the combined total is not invariant under permutation,
contrary to the claim. -/
theorem sum_perm_cpu_counterexample :
    List.Perm
      [({ mem_request := 0, mem_limit := 0, cpu_request := 16777216, cpu_limit := 0 } : Resources),
        { mem_request := 0, mem_limit := 0, cpu_request := 1, cpu_limit := 0 },
        { mem_request := 0, mem_limit := 0, cpu_request := 1, cpu_limit := 0 }]
      [({ mem_request := 0, mem_limit := 0, cpu_request := 1, cpu_limit := 0 } : Resources),
        { mem_request := 0, mem_limit := 0, cpu_request := 1, cpu_limit := 0 },
        { mem_request := 0, mem_limit := 0, cpu_request := 16777216, cpu_limit := 0 }] ∧
    roundF32 16777216 = 16777216 ∧ roundF32 1 = 1 ∧
    (sumResources
        [({ mem_request := 0, mem_limit := 0, cpu_request := 16777216, cpu_limit := 0 } : Resources),
          { mem_request := 0, mem_limit := 0, cpu_request := 1, cpu_limit := 0 },
          { mem_request := 0, mem_limit := 0, cpu_request := 1, cpu_limit := 0 }]).cpu_request ≠
      (sumResources
        [({ mem_request := 0, mem_limit := 0, cpu_request := 1, cpu_limit := 0 } : Resources),
          { mem_request := 0, mem_limit := 0, cpu_request := 1, cpu_limit := 0 },
          { mem_request := 0, mem_limit := 0, cpu_request := 16777216, cpu_limit := 0 }]).cpu_request :=
  ⟨by decide, by decide, by decide, by decide⟩

/-- C1, amended: combining any finite sequence of `Resources` records with
the code's fold gives the same `mem_request` and `mem_limit` totals for
every permutation of the sequence (`u64` wrap-around addition is still
commutative and associative); the floating-point `cpu_request` and
`cpu_limit` fields need not agree across permutations because `f32`
addition is not associative. -/
theorem sum_perm_mem_invariant (l₁ l₂ : List Resources) (h : List.Perm l₁ l₂) :
    (sumResources l₁).mem_request = (sumResources l₂).mem_request ∧
    (sumResources l₁).mem_limit = (sumResources l₂).mem_limit := by
  constructor
  · rw [sumResources_mem_request, sumResources_mem_request,
      (h.map Resources.mem_request).sum_eq]
  · rw [sumResources_mem_limit, sumResources_mem_limit,
      (h.map Resources.mem_limit).sum_eq]

/-- C1, amended, witness at a concrete two-element permutation. -/
theorem sum_perm_mem_invariant_witness :
    (sumResources
        [({ mem_request := 1, mem_limit := 2, cpu_request := 0, cpu_limit := 0 } : Resources),
          { mem_request := 3, mem_limit := 4, cpu_request := 0, cpu_limit := 0 }]).mem_request =
      (sumResources
        [({ mem_request := 3, mem_limit := 4, cpu_request := 0, cpu_limit := 0 } : Resources),
          { mem_request := 1, mem_limit := 2, cpu_request := 0, cpu_limit := 0 }]).mem_request ∧
    (sumResources
        [({ mem_request := 1, mem_limit := 2, cpu_request := 0, cpu_limit := 0 } : Resources),
          { mem_request := 3, mem_limit := 4, cpu_request := 0, cpu_limit := 0 }]).mem_limit =
      (sumResources
        [({ mem_request := 3, mem_limit := 4, cpu_request := 0, cpu_limit := 0 } : Resources),
          { mem_request := 1, mem_limit := 2, cpu_request := 0, cpu_limit := 0 }]).mem_limit :=
  sum_perm_mem_invariant _ _ (by decide)

/-- C2, code-bug evidence: in the CPU-then-memory `requests` pattern the
memory capture `(.*)` keeps any surrounding quotes, and a leading quote
character makes the numeric prefix parser return `0`.  The document whose
memory value is the quoted `"128M"` therefore contributes `0` to
`mem_request`, while the identical document with the unquoted `128M`
contributes `128` — quoting is not neutral, contrary to the claim (and to
the example format in the source's own comment). -/
theorem quoted_memory_not_counted :
    (analyze "requests:\n    cpu: \"100m\"\n    memory: \"128M\"").mem_request = 0 ∧
    (analyze "requests:\n    cpu: \"100m\"\n    memory: 128M").mem_request = 128 :=
  ⟨by decide, by decide⟩

/-- C3: the numeric prefix parser returns the longest leading run of ASCII
decimal digits parsed as an unsigned integer whenever that run is nonempty
and its value fits a `u64`, and `0` when there is no leading digit; the run
`leadingDigits` is maximal among digit-only prefixes; and the parser agrees
with the spec's examples.  (The function is total, so no input can raise an
error.) -/
theorem num_prefix_spec :
    (∀ (s : String) (n : ℕ), n ≤ s.data.length →
        (∀ c ∈ s.data.take n, c.isDigit = true) →
        n ≤ (leadingDigits s.data).length) ∧
    (∀ s : String, leadingDigits s.data ≠ [] →
        digitsToNat (leadingDigits s.data) < 2 ^ 64 →
        num_prefix_or_zero s = digitsToNat (leadingDigits s.data)) ∧
    (∀ s : String, leadingDigits s.data = [] → num_prefix_or_zero s = 0) ∧
    num_prefix_or_zero "500m" = 500 ∧ num_prefix_or_zero "128Mi" = 128 ∧
    num_prefix_or_zero "abc" = 0 ∧ num_prefix_or_zero "" = 0 ∧
    num_prefix_or_zero "0" = 0 := by
  refine ⟨?_, ?_, ?_, by decide, by decide, by decide, by decide, by decide⟩
  · exact fun s n hn hall => takeWhile_length_maximal _ s.data n hn hall
  · intro s hne hlt
    unfold num_prefix_or_zero num_prefix_or_zeroL
    rw [if_neg hne]
    unfold parse_u64
    have hall : ((leadingDigits s.data).all fun c => c.isDigit) = true :=
      takeWhile_all _ s.data
    rw [if_neg hne, if_pos hall, if_pos hlt]
  · intro s he
    unfold num_prefix_or_zero num_prefix_or_zeroL
    rw [if_pos he]

/-- C3, witness: the maximality bound and both return branches
instantiated at concrete strings. -/
theorem num_prefix_spec_witness :
    2 ≤ (leadingDigits "42x".data).length ∧
    num_prefix_or_zero "7m" = 7 ∧ num_prefix_or_zero "m7" = 0 :=
  ⟨num_prefix_spec.1 "42x" 2 (by decide) (by decide),
    (num_prefix_spec.2.1 "7m" (by decide) (by decide)).trans (by decide),
    num_prefix_spec.2.2.1 "m7" (by decide)⟩

/-- C4: `parse_cpu` divides the converted numeric prefix by `1000.0` in
`f32` arithmetic, and matches the spec's example values exactly
(`500 / 1000`, `1000 / 1000` and `0 / 1000` are exactly representable). -/
theorem parse_cpu_spec :
    parse_cpu "500m" = 1 / 2 ∧ parse_cpu "1000m" = 1 ∧ parse_cpu "" = 0 ∧
    ∀ s : String, parse_cpu s = f32div (f32ofNat (num_prefix_or_zero s)) 1000 :=
  ⟨by decide, by decide, by decide, fun _ => rfl⟩

/-- C5: analyzing the CPU-then-memory document from the spec yields
exactly memory request 64, memory limit 128, CPU request 0.25 and CPU
limit 0.5. -/
theorem analyze_cpu_then_mem_doc :
    analyze "requests:\n  cpu: \"250m\"\n  memory: 64M\nlimits:\n  cpu: \"500m\"\n  memory: 128M" =
      { mem_request := 64, mem_limit := 128, cpu_request := 1 / 4, cpu_limit := 1 / 2 } := by
  decide

/-- C6: analyzing the memory-then-CPU requests document yields request
memory 64 and request CPU 0.25 with both limit fields zero, and the
CPU-then-memory pattern finds no match in it at all (no double
counting). -/
theorem analyze_mem_then_cpu_doc :
    analyze "requests:\n  memory: \"64M\"\n  cpu: \"250m\"" =
      { mem_request := 64, mem_limit := 0, cpu_request := 1 / 4, cpu_limit := 0 } ∧
    allMatches REGEX_REQ_CPU_MEM ("requests:\n  memory: \"64M\"\n  cpu: \"250m\"").data = [] :=
  ⟨by decide, by decide⟩

/-- C7, counterexample: the memory fields are `u64`, not unbounded
integers; adding two records whose `mem_request` is `2 ^ 63` wraps the sum
to `0`, which is strictly smaller than the original field — the fields do
not "only ever increase". -/
theorem add_mem_wrap_counterexample :
    (addResources
        { mem_request := 2 ^ 63, mem_limit := 0, cpu_request := 0, cpu_limit := 0 }
        { mem_request := 2 ^ 63, mem_limit := 0, cpu_request := 0, cpu_limit := 0 }).mem_request <
      ({ mem_request := 2 ^ 63, mem_limit := 0, cpu_request := 0, cpu_limit := 0 } :
        Resources).mem_request := by
  decide

/-- C7, amended: each field of `t + u` is at least the corresponding field
of `t`, provided the `u64` memory sums do not wrap past `2 ^ 64` and the
CPU fields are nonnegative finite `f32` values (`t`'s CPU fields being
round-stable rationals, i.e. exactly representable). -/
theorem addResources_monotone (t u : Resources)
    (hm1 : t.mem_request + u.mem_request < 2 ^ 64)
    (hm2 : t.mem_limit + u.mem_limit < 2 ^ 64)
    (hc1 : roundF32 t.cpu_request = t.cpu_request)
    (hc2 : roundF32 t.cpu_limit = t.cpu_limit)
    (hc3 : 0 ≤ t.cpu_request) (hc4 : 0 ≤ t.cpu_limit)
    (hc5 : 0 ≤ u.cpu_request) (hc6 : 0 ≤ u.cpu_limit) :
    t.mem_request ≤ (addResources t u).mem_request ∧
    t.mem_limit ≤ (addResources t u).mem_limit ∧
    t.cpu_request ≤ (addResources t u).cpu_request ∧
    t.cpu_limit ≤ (addResources t u).cpu_limit := by
  refine ⟨?_, ?_, f32add_ge_left hc1 hc3 hc5, f32add_ge_left hc2 hc4 hc6⟩
  · show t.mem_request ≤ u64add t.mem_request u.mem_request
    unfold u64add
    rw [Nat.mod_eq_of_lt hm1]
    omega
  · show t.mem_limit ≤ u64add t.mem_limit u.mem_limit
    unfold u64add
    rw [Nat.mod_eq_of_lt hm2]
    omega

/-- C7, amended, witness at two concrete records with representable,
nonnegative CPU fields. -/
theorem addResources_monotone_witness :
    sampleT.mem_request ≤ (addResources sampleT sampleU).mem_request ∧
    sampleT.mem_limit ≤ (addResources sampleT sampleU).mem_limit ∧
    sampleT.cpu_request ≤ (addResources sampleT sampleU).cpu_request ∧
    sampleT.cpu_limit ≤ (addResources sampleT sampleU).cpu_limit :=
  addResources_monotone sampleT sampleU (by decide) (by decide) (by decide)
    (by decide) (by decide) (by decide) (by decide) (by decide)

/-- C8: a document in which none of the four patterns matches anywhere
(for instance one whose `requests` block has no memory field, or uses an
unsupported field ordering) contributes zero to all four fields; `analyze`
is a total function, so no document can raise an error. -/
theorem analyze_unmatched_zero (config : String)
    (h1 : allMatches REGEX_REQ_CPU_MEM config.data = [])
    (h2 : allMatches REGEX_REQ_MEM_CPU config.data = [])
    (h3 : allMatches REGEX_LIM_CPU_MEM config.data = [])
    (h4 : allMatches REGEX_LIM_MEM_CPU config.data = []) :
    analyze config = zeroResources := by
  unfold analyze analyzeL
  rw [h1, h2, h3, h4]
  rfl

/-- C8, witness: a `requests` block with a CPU field but no memory field
is matched by no pattern and contributes nothing. -/
theorem analyze_unmatched_zero_witness :
    analyze "requests:\n  cpu: \"250m\"\n" = zeroResources :=
  analyze_unmatched_zero _ (by decide) (by decide) (by decide) (by decide)

/-- C9: when the root is not a directory (missing path or plain file),
`find_yamls` returns an `Ok` empty collection rather than an error, and
the grand total over zero documents is the all-zero record, so the run
completes successfully reporting all-zero totals. -/
theorem find_yamls_not_dir (root : FsNode) (h : isDirN root = false) :
    find_yamls root = Except.ok [] ∧ totalsOf [] = zeroResources := by
  refine ⟨?_, rfl⟩
  cases root with
  | missing => rfl
  | file ext content => rfl
  | dir readable es => simp [isDirN] at h

/-- C9, witness: a missing root path. -/
theorem find_yamls_not_dir_witness :
    find_yamls FsNode.missing = Except.ok [] ∧ totalsOf [] = zeroResources :=
  find_yamls_not_dir FsNode.missing rfl

/-- C10: when the leading digit run denotes a value of at least `2 ^ 64`,
the `u64` parse fails and the numeric prefix parser returns `0`, exactly
as for an absent prefix. -/
theorem num_prefix_overflow (s : String)
    (h : 2 ^ 64 ≤ digitsToNat (leadingDigits s.data)) :
    num_prefix_or_zero s = 0 := by
  unfold num_prefix_or_zero num_prefix_or_zeroL
  by_cases hld : leadingDigits s.data = []
  · rw [if_pos hld]
  · rw [if_neg hld]
    unfold parse_u64
    have hall : ((leadingDigits s.data).all fun c => c.isDigit) = true :=
      takeWhile_all _ s.data
    rw [if_neg hld, if_pos hall, if_neg (by omega)]

/-- C10, witness: a twenty-digit value exceeds `u64::MAX` and parses to 0. -/
theorem num_prefix_overflow_witness :
    num_prefix_or_zero "99999999999999999999" = 0 :=
  num_prefix_overflow _ (by decide)

end Greedy
